import Mathlib

/-!
Verification of the canonical-imaging processing pipeline
(`djimaging/processing.py`) against its natural-language specification.

The pipeline ingests suite2p output (a "loader" object exposing per-plane
results) and materializes entity rows: Processing, MotionCorrection (with
Rigid/NonRigid/Block parts), MotionCorrectedImages, Segmentation (with
Mask/Cell parts) and Fluorescence (with Trace parts).

Shallow embedding choices:
* Opaque payloads carried from the loader into rows (images, per-ROI
  fluorescence series, pixel weights, probabilities) are represented by
  `Nat` identifiers; shift arrays by `List Int`; timestamps by `Nat`.
* `np.nanstd` is an external numeric routine; the embedding takes it as a
  function parameter `nanstd : List Int → Int`.
* The loader class `img_loaders.suite2p.Suite2p` is not part of this
  repository's sources; its output shape is modelled from the spec
  (§4.2 Loader Adapter): `planes` is an ordered sequence of per-plane
  results, keyed by ascending plane identifier `0, 1, ...` (spec §4.4
  step 6), so a plane's dict key equals its position in the sequence.
* A `make(self, key)` step is embedded as a pure function from the data it
  reads (method string, loader output, directory existence) to a
  `MakeOutcome` describing the rows it inserts for that key, Python's bare
  `return` (no insert), or a raised error.
-/

/-- Per-mask segmentation statistics as read from suite2p `stat`:
`npix`, `med = (y, x)` centroid, pixel coordinate lists and weights. -/
structure MaskStat where
  npix : Nat
  med : Nat × Nat
  xpix : List Nat
  ypix : List Nat
  lam : List Nat
  deriving Repr, DecidableEq

/-- The suite2p `ops` dictionary fields read by `MotionCorrection.make`.
`yoff1T`/`xoff1T` are the transposed per-block shift arrays
(`ops['yoff1'].T`, `ops['xoff1'].T`), one entry per block. -/
structure Ops where
  yoff : List Int
  xoff : List Int
  badframes : List Bool
  nonrigid : Bool
  block_size : Int × Int
  nblocks : Nat × Nat
  xblock : List (Int × Int)
  yblock : List (Int × Int)
  yoff1T : List (List Int)
  xoff1T : List (List Int)
  deriving Repr, DecidableEq

/-- Modelled from the spec: one per-plane result (`PlaneResult`, spec §4.2)
of the suite2p Loader Adapter, bundling alignment/segmentation channel,
motion-correction `ops`, per-cell segmentation stats, summary images and
raw/neuropil fluorescence series per channel. The loader implementation
itself (`img_loaders.suite2p`) is not under the repository sources. -/
structure S2pPlane where
  alignment_channel : Nat
  segmentation_channel : Nat
  ops : Ops
  iscell : List Bool
  cell_prob : List Nat
  stat : List MaskStat
  F : List Nat
  Fneu : List Nat
  F_chan2 : List Nat
  Fneu_chan2 : List Nat
  ref_image : Nat
  mean_image : Nat
  correlation_map : Nat
  max_proj_image : Nat
  deriving Repr, DecidableEq

/-- Modelled from the spec: the suite2p Loader Adapter handle
(`suite2p.Suite2p(data_dir)`), exposing `creation_time`, `curation_time`
and the ordered per-plane results; plane `i` of the sequence carries the
plane identifier `i` (spec §4.4 step 6: planes are iterated in ascending
plane identifier). -/
structure Suite2p where
  creation_time : Nat
  curation_time : Option Nat
  planes : List S2pPlane
  deriving Repr, DecidableEq

/-- The outcome of one `make(self, key)` call on one key: the rows inserted
for the key, a bare `return` with no insert (Processing's "not yet run"
branch), a raised `NotImplementedError` for an unknown method, or another
runtime error (e.g. indexing `planes[0]` of an empty loader). -/
inductive MakeOutcome (ρ : Type) where
  | inserted : ρ → MakeOutcome ρ
  | pending : MakeOutcome ρ
  | unsupported : MakeOutcome ρ
  | error : MakeOutcome ρ
  deriving Repr, DecidableEq

/-- The rows a `MakeOutcome` inserted, if any. -/
def MakeOutcome.insertedRows {ρ : Type} : MakeOutcome ρ → Option ρ
  | .inserted r => some r
  | _ => none

-- ===== Segmentation =====

/-- One element of the `masks` list built by `Segmentation.make`: the
per-mask dict from which both the `Mask` row and the `Cell` row are
inserted (each with `ignore_extra_fields=True`). `plane` records the
`ScanInfo.Field` key fetched for this plane. -/
structure SegEntry where
  mask : Nat
  plane : Nat
  is_cell : Bool
  cell_prob : Nat
  npix : Nat
  center_x : Nat
  center_y : Nat
  xpix : List Nat
  ypix : List Nat
  weights : List Nat
  deriving Repr, DecidableEq

/-- The inner loop of `Segmentation.make` for one plane: enumerate
`zip(s2p.iscell, s2p.cell_prob, s2p.stat)` and build each mask dict with
id `mask_idx + mask_count`, `center_x = med[1]`, `center_y = med[0]`. -/
def planeMasks (plane : Nat) (mask_count : Nat) (s2p : S2pPlane) : List SegEntry :=
  (List.zip s2p.iscell (List.zip s2p.cell_prob s2p.stat)).enum.map
    (fun p =>
      { mask := p.1 + mask_count
        plane := plane
        is_cell := p.2.1
        cell_prob := p.2.2.1
        npix := p.2.2.2.npix
        center_x := p.2.2.2.med.2
        center_y := p.2.2.2.med.1
        xpix := p.2.2.2.xpix
        ypix := p.2.2.2.ypix
        weights := p.2.2.2.lam })

/-- The `masks` accumulation of `Segmentation.make`: iterate planes in
order, with `mask_count = len(masks)` at the start of each plane. -/
def segMasks (planes : List S2pPlane) : List SegEntry :=
  planes.enum.foldl (fun masks p => masks ++ planeMasks p.1 masks.length p.2) []

/-- The row set inserted by one `Segmentation.make` call: the master row's
`seg_channel` and the shared `masks` list (projected into `Mask` rows and
`Cell` rows by the two inserts). -/
structure SegResult where
  seg_channel : Nat
  masks : List SegEntry
  deriving Repr, DecidableEq

/-- `Segmentation.Cell` row fields (projection of a mask dict by
`ignore_extra_fields`). -/
structure CellRow where
  mask : Nat
  is_cell : Bool
  cell_prob : Nat
  deriving Repr, DecidableEq

/-- The `Cell` rows inserted from the shared `masks` list. -/
def SegResult.cellRows (r : SegResult) : List CellRow :=
  r.masks.map (fun m => ⟨m.mask, m.is_cell, m.cell_prob⟩)

/-- `Segmentation.make(self, key)`: branch on the processing method; for
suite2p read `seg_channel` from `planes[0]`, accumulate mask dicts over all
planes, and insert the master row plus `Mask` and `Cell` parts. -/
def Segmentation.make (method : String) (loader : Suite2p) : MakeOutcome SegResult :=
  if method = "suite2p" then
    match loader.planes with
    | [] => .error
    | p0 :: _ => .inserted ⟨p0.segmentation_channel, segMasks loader.planes⟩
  else .unsupported

-- ===== Processing =====

/-- A `Processing` row: `start_time=null`, `completion_time`,
`curation_time=null` (times as abstract timestamps). -/
structure ProcessingRow where
  start_time : Option Nat
  completion_time : Nat
  curation_time : Option Nat
  deriving Repr, DecidableEq

/-- The rows one `Processing.make` call inserts: the `Processing` row
itself, the `PhysicalFile` registrations and the `ProcessingOutputFile`
part rows (file paths relative to the root data dir). -/
structure ProcessingResult where
  processing : List ProcessingRow
  physical_files : List String
  output_files : List String
  deriving Repr, DecidableEq

/-- `Processing.make(self, key)`: for suite2p, if the output directory
exists, open the loader, insert one `Processing` row with the loader's
creation/curation times, register the directory's files and insert the
`ProcessingOutputFile` parts; if the directory is absent, `return` without
inserting (the triggering branch is a stub). Directory existence and the
relativized file listing are collaborator inputs (filesystem). -/
def Processing.make (method : String) (dirExists : Bool) (loader : Suite2p)
    (files : List String) : MakeOutcome ProcessingResult :=
  if method = "suite2p" then
    if dirExists then
      .inserted
        { processing := [⟨none, loader.creation_time, loader.curation_time⟩]
          physical_files := files
          output_files := files }
    else .pending
  else .unsupported

-- ===== Motion correction =====

/-- A `MotionCorrection.RigidMotionCorrection` row for one field. -/
structure RigidRow where
  plane : Nat
  y_shifts : List Int
  x_shifts : List Int
  y_std : Int
  x_std : Int
  outlier_frames : List Bool
  deriving Repr, DecidableEq

/-- A `MotionCorrection.NonRigidMotionCorrection` row for one field. -/
structure NonrigidRow where
  plane : Nat
  block_height : Int
  block_width : Int
  block_count_y : Nat
  block_count_x : Nat
  outlier_frames : List Bool
  deriving Repr, DecidableEq

/-- A `MotionCorrection.Block` row: as in the source, `block_y` is drawn
from `ops['xblock']` and `block_x` from `ops['yblock']` (the zip pairs
them in that order). -/
structure BlockRow where
  plane : Nat
  block_id : Nat
  block_y : Int × Int
  block_x : Int × Int
  y_shifts : List Int
  x_shifts : List Int
  y_std : Int
  x_std : Int
  deriving Repr, DecidableEq

/-- The per-plane body of the `MotionCorrection.make` loop: always build
the rigid row; build the non-rigid row and its enumerated block rows only
when `ops['nonrigid']` is truthy. -/
def mcPlane (nanstd : List Int → Int) (plane : Nat) (s2p : S2pPlane) :
    RigidRow × Option (NonrigidRow × List BlockRow) :=
  let rigid : RigidRow :=
    { plane := plane
      y_shifts := s2p.ops.yoff
      x_shifts := s2p.ops.xoff
      y_std := nanstd s2p.ops.yoff
      x_std := nanstd s2p.ops.xoff
      outlier_frames := s2p.ops.badframes }
  if s2p.ops.nonrigid then
    let nr : NonrigidRow :=
      { plane := plane
        block_height := s2p.ops.block_size.1
        block_width := s2p.ops.block_size.2
        block_count_y := s2p.ops.nblocks.1
        block_count_x := s2p.ops.nblocks.2
        outlier_frames := s2p.ops.badframes }
    let blocks : List BlockRow :=
      (List.zip s2p.ops.xblock
        (List.zip s2p.ops.yblock (List.zip s2p.ops.yoff1T s2p.ops.xoff1T))).enum.map
        (fun b =>
          { plane := plane
            block_id := b.1
            block_y := b.2.1
            block_x := b.2.2.1
            y_shifts := b.2.2.2.1
            x_shifts := b.2.2.2.2
            y_std := nanstd b.2.2.2.1
            x_std := nanstd b.2.2.2.2 })
    (rigid, some (nr, blocks))
  else (rigid, none)

/-- The rows one `MotionCorrection.make` call inserts: the master row's
`mc_channel` plus the rigid, non-rigid and block part rows accumulated over
all planes. -/
structure MCResult where
  mc_channel : Nat
  rigid : List RigidRow
  nonrigid : List NonrigidRow
  blocks : List BlockRow
  deriving Repr, DecidableEq

/-- One iteration of the `MotionCorrection.make` plane loop: append the
rigid row and, when present, the non-rigid row and its blocks. -/
def mcStep (nanstd : List Int → Int)
    (acc : List RigidRow × List NonrigidRow × List BlockRow)
    (p : Nat × S2pPlane) : List RigidRow × List NonrigidRow × List BlockRow :=
  let r := mcPlane nanstd p.1 p.2
  match r.2 with
  | none => (acc.1 ++ [r.1], acc.2.1, acc.2.2)
  | some nr => (acc.1 ++ [r.1], acc.2.1 ++ [nr.1], acc.2.2 ++ nr.2)

/-- Collect the part rows of the `MotionCorrection.make` plane loop in
iteration order. -/
def mcRows (nanstd : List Int → Int) (planes : List S2pPlane) :
    List RigidRow × List NonrigidRow × List BlockRow :=
  planes.enum.foldl (mcStep nanstd) ([], [], [])

/-- `MotionCorrection.make(self, key)`: for suite2p read `mc_channel` from
`planes[0].alignment_channel`, then per plane insert the rigid row and,
when `ops['nonrigid']`, the non-rigid row and its blocks. -/
def MotionCorrection.make (nanstd : List Int → Int) (method : String)
    (loader : Suite2p) : MakeOutcome MCResult :=
  if method = "suite2p" then
    match loader.planes with
    | [] => .error
    | p0 :: _ =>
      let rows := mcRows nanstd loader.planes
      .inserted ⟨p0.alignment_channel, rows.1, rows.2.1, rows.2.2⟩
  else .unsupported

-- ===== Motion-corrected summary images =====

/-- A `MotionCorrectedImages` row for one field: reference, average (mean),
correlation and max-projection images of that plane. -/
structure ImagesRow where
  plane : Nat
  ref_image : Nat
  average_image : Nat
  correlation_image : Nat
  max_proj_image : Nat
  deriving Repr, DecidableEq

/-- `MotionCorrectedImages.make(self, key)`: for suite2p, one row per
plane of the loader output carrying that plane's four summary images (the
source iterates the loader's plane results; the loader's iteration
protocol is modelled from the spec as the ordered plane sequence). -/
def MotionCorrectedImages.make (method : String) (loader : Suite2p) :
    MakeOutcome (List ImagesRow) :=
  if method = "suite2p" then
    .inserted (loader.planes.enum.map
      (fun p => ⟨p.1, p.2.ref_image, p.2.mean_image, p.2.correlation_map,
                 p.2.max_proj_image⟩))
  else .unsupported

-- ===== Fluorescence =====

/-- A `Fluorescence.Trace` row: mask id, `fluo_channel`, raw and neuropil
fluorescence series. -/
structure TraceRow where
  mask : Nat
  fluo_channel : Nat
  fluo : Nat
  neuropil_fluo : Nat
  deriving Repr, DecidableEq

/-- The `fluo_traces` accumulation of `Fluorescence.make`: per plane,
`mask_count = len(fluo_traces)` at the start, then enumerate
`zip(s2p.F, s2p.Fneu)` with `fluo_channel = 0` and, if `s2p.F_chan2` is
non-empty, enumerate `zip(s2p.F_chan2, s2p.Fneu_chan2)` with
`fluo_channel = 1`, both offset by the same `mask_count`. -/
def fluoStep (fluo_traces : List TraceRow) (s2p : S2pPlane) : List TraceRow :=
  let mask_count := fluo_traces.length
  let chan0 := (List.zip s2p.F s2p.Fneu).enum.map
    (fun t => TraceRow.mk (t.1 + mask_count) 0 t.2.1 t.2.2)
  let fluo_traces := fluo_traces ++ chan0
  if s2p.F_chan2.length ≠ 0 then
    fluo_traces ++ (List.zip s2p.F_chan2 s2p.Fneu_chan2).enum.map
      (fun t => TraceRow.mk (t.1 + mask_count) 1 t.2.1 t.2.2)
  else fluo_traces

/-- The `fluo_traces` accumulation of `Fluorescence.make` over all
planes. -/
def fluoTraces (planes : List S2pPlane) : List TraceRow :=
  planes.foldl fluoStep []

/-- `Fluorescence.make(self, key)`: for suite2p, insert the master row and
the trace rows accumulated over all planes. -/
def Fluorescence.make (method : String) (loader : Suite2p) :
    MakeOutcome (List TraceRow) :=
  if method = "suite2p" then .inserted (fluoTraces loader.planes)
  else .unsupported

-- ===== Key source and eligibility =====

/-- The record-store state the `Processing.key_source` restriction reads:
`ScanInfo` keys (scan ids), `ProcessingTask` keys (scan id, processing
instance) and already-materialized `Processing` keys. -/
structure Store where
  scanInfo : List Nat
  processingTask : List (Nat × Nat)
  processing : List (Nat × Nat)
  deriving Repr, DecidableEq

/-- `Processing.key_source = ProcessingTask & ScanInfo`: the restriction
of `ProcessingTask` to keys whose scan has a `ScanInfo` record (the
operands share exactly the scan attributes). -/
def Processing.key_source (s : Store) : List (Nat × Nat) :=
  s.processingTask.filter (fun k => s.scanInfo.contains k.1)

/-- Modelled from the spec: the Key Source Resolver's eligibility set
(spec §4.3), `eligible(T) = key_source \ keys_present(T)` — the populate
machinery that subtracts already-materialized keys is framework code not
under the repository sources. -/
def eligibleProcessing (s : Store) : List (Nat × Nat) :=
  (Processing.key_source s).filter (fun k => ¬ s.processing.contains k)

-- ===== Population pass =====

/-- The per-key outcome a population pass records (spec §7 taxonomy,
restricted to the outcomes the embedded make steps produce). -/
inductive KeyOutcome where
  | succeeded : KeyOutcome
  | pendingKey : KeyOutcome
  | unsupportedMethod : KeyOutcome
  | errored : KeyOutcome
  deriving Repr, DecidableEq

/-- Classify one make outcome as a per-key pass outcome. -/
def MakeOutcome.keyOutcome {ρ : Type} : MakeOutcome ρ → KeyOutcome
  | .inserted _ => .succeeded
  | .pending => .pendingKey
  | .unsupported => .unsupportedMethod
  | .error => .errored

/-- Modelled from the spec: the Computation Executor's population pass
(spec §4.4/§7) — framework code not under the repository sources. It
iterates the eligible keys sequentially, runs the make step on each,
attributes any failure to that key alone and accumulates a per-key
outcome; it never aborts the pass or drops a key. -/
def populatePass {κ ρ : Type} (makeFn : κ → MakeOutcome ρ) (keys : List κ) :
    List (κ × KeyOutcome) :=
  keys.map (fun k => (k, (makeFn k).keyOutcome))

-- ===== Loader well-formedness =====

/-- Modelled from the spec: a well-formed per-plane loader result reports
one entry per detected mask in each of the parallel per-cell sequences
(spec §4.2: a `PlaneResult` bundles per-cell segmentation stats and
raw/neuropil fluorescence series per channel), so `iscell`, `cell_prob`,
`stat`, `F` and `Fneu` all have the plane's mask count as length, and the
second-channel series `F_chan2`/`Fneu_chan2` are equally long (both empty
when the scan has no second channel). -/
def S2pPlane.WF (p : S2pPlane) : Prop :=
  p.cell_prob.length = p.iscell.length ∧
  p.stat.length = p.iscell.length ∧
  p.F.length = p.iscell.length ∧
  p.Fneu.length = p.iscell.length ∧
  p.Fneu_chan2.length = p.F_chan2.length

instance (p : S2pPlane) : Decidable p.WF := by
  unfold S2pPlane.WF; infer_instance

/-- Modelled from the spec: the loader's `curation_time` is the time of
the latest modification to the result set, never earlier than the
`creation_time` of the results (spec §3: `curation_time`, if set, must be
≥ completion_time). -/
def Suite2p.TimesWF (l : Suite2p) : Prop :=
  ∀ c, l.curation_time = some c → l.creation_time ≤ c

instance (l : Suite2p) : Decidable l.TimesWF := by
  unfold Suite2p.TimesWF
  match h : l.curation_time with
  | none => exact isTrue (by simp [h])
  | some c => exact decidable_of_iff (l.creation_time ≤ c) (by simp [h])

-- ===== Lemmas: enumeration and zipping =====

theorem enum_map_fst_add {α : Type} (l : List α) (c : Nat) :
    l.enum.map (fun q => q.1 + c) = (List.range l.length).map (· + c) := by
  rw [← List.enum_map_fst l, List.map_map]
  rfl

theorem enum_map_snd_comp {α β : Type} (l : List α) (g : α → β) :
    l.enum.map (fun q => g q.2) = l.map g := by
  conv_rhs => rw [← List.enum_map_snd l]
  rw [List.map_map]
  rfl

-- ===== Lemmas: segmentation mask numbering =====

/-- The number of mask dicts `Segmentation.make` builds for one plane (a
triple zip truncates to the shortest of the three sequences). -/
def planeMaskCount (p : S2pPlane) : Nat :=
  min p.iscell.length (min p.cell_prob.length p.stat.length)

theorem planeMaskCount_of_wf (p : S2pPlane) (h : p.WF) :
    planeMaskCount p = p.iscell.length := by
  obtain ⟨h1, h2, -⟩ := h
  simp [planeMaskCount, h1, h2]

theorem planeMasks_length (i c : Nat) (p : S2pPlane) :
    (planeMasks i c p).length = planeMaskCount p := by
  simp [planeMasks, planeMaskCount, List.length_zip]

theorem planeMasks_map_mask (i c : Nat) (p : S2pPlane) :
    (planeMasks i c p).map SegEntry.mask
      = (List.range (planeMaskCount p)).map (· + c) := by
  have h := enum_map_fst_add (List.zip p.iscell (List.zip p.cell_prob p.stat)) c
  simp only [List.length_zip] at h
  unfold planeMasks
  rw [List.map_map]
  exact h

theorem planeMasks_map_is_cell (i c : Nat) (p : S2pPlane) (h : p.WF) :
    (planeMasks i c p).map SegEntry.is_cell = p.iscell := by
  obtain ⟨h1, h2, -⟩ := h
  unfold planeMasks
  rw [List.map_map]
  have he := enum_map_snd_comp (List.zip p.iscell (List.zip p.cell_prob p.stat))
    (fun q => q.1)
  have hz : (List.zip p.iscell (List.zip p.cell_prob p.stat)).map (fun q => q.1)
      = p.iscell := by
    apply List.map_fst_zip
    simp [List.length_zip, h1, h2]
  exact he.trans hz

/-- Structural companion of the `segMasks` fold, starting at plane index
`i` with `mask_count = count`. -/
def segMasksFrom (i count : Nat) : List S2pPlane → List SegEntry
  | [] => []
  | s2p :: rest =>
    planeMasks i count s2p ++
      segMasksFrom (i + 1) (count + (planeMasks i count s2p).length) rest

theorem segMasks_foldl (planes : List S2pPlane) :
    ∀ (i : Nat) (acc : List SegEntry),
      (List.enumFrom i planes).foldl
        (fun masks p => masks ++ planeMasks p.1 masks.length p.2) acc
      = acc ++ segMasksFrom i acc.length planes := by
  induction planes with
  | nil => intro i acc; simp [segMasksFrom]
  | cons s2p rest ih =>
    intro i acc
    simp only [List.enumFrom_cons, List.foldl_cons, segMasksFrom]
    rw [ih (i + 1) (acc ++ planeMasks i acc.length s2p)]
    simp [List.length_append, List.append_assoc]

theorem segMasks_eq_from (planes : List S2pPlane) :
    segMasks planes = segMasksFrom 0 0 planes := by
  have h := segMasks_foldl planes 0 []
  simpa [segMasks, List.enum] using h

/-- The total number of mask dicts over all planes. -/
def maskTotal (planes : List S2pPlane) : Nat :=
  (planes.map planeMaskCount).sum

theorem segMasksFrom_map_mask (planes : List S2pPlane) :
    ∀ i c, (segMasksFrom i c planes).map SegEntry.mask
      = (List.range (maskTotal planes)).map (· + c) := by
  induction planes with
  | nil => intro i c; simp [segMasksFrom, maskTotal]
  | cons p rest ih =>
    intro i c
    simp only [segMasksFrom, List.map_append, maskTotal, List.map_cons, List.sum_cons]
    rw [planeMasks_map_mask, planeMasks_length, ih (i + 1) (c + planeMaskCount p),
      List.range_add, List.map_append, List.map_map]
    congr 1
    apply List.map_congr_left
    intro a _
    simp [Function.comp]
    omega

theorem segMasksFrom_map_is_cell (planes : List S2pPlane) (h : ∀ p ∈ planes, p.WF) :
    ∀ i c, (segMasksFrom i c planes).map SegEntry.is_cell
      = (planes.map S2pPlane.iscell).flatten := by
  induction planes with
  | nil => intro i c; simp [segMasksFrom]
  | cons p rest ih =>
    intro i c
    simp only [segMasksFrom, List.map_append, List.map_cons, List.flatten_cons]
    rw [planeMasks_map_is_cell i c p (h p (by simp)),
      ih (fun q hq => h q (by simp [hq])) (i + 1) (c + (planeMasks i c p).length)]

theorem segMasks_map_mask (planes : List S2pPlane) :
    (segMasks planes).map SegEntry.mask = List.range (maskTotal planes) := by
  rw [segMasks_eq_from, segMasksFrom_map_mask planes 0 0]
  simp

theorem segMasks_map_is_cell (planes : List S2pPlane) (h : ∀ p ∈ planes, p.WF) :
    (segMasks planes).map SegEntry.is_cell = (planes.map S2pPlane.iscell).flatten := by
  rw [segMasks_eq_from, segMasksFrom_map_is_cell planes h 0 0]

theorem maskTotal_of_wf (planes : List S2pPlane) (h : ∀ p ∈ planes, p.WF) :
    maskTotal planes = (planes.map (fun p => p.iscell.length)).sum := by
  unfold maskTotal
  congr 1
  apply List.map_congr_left
  intro p hp
  exact planeMaskCount_of_wf p (h p hp)

-- ===== Concrete example data =====

/-- Trivial `ops` payload for example planes (rigid-only, no shifts). -/
def exOps : Ops := ⟨[], [], [], false, (0, 0), (0, 0), [], [], [], []⟩

/-- An example plane whose per-cell sequences all have one entry per mask
of `iscell` (and no second channel). -/
def exPlane (iscell : List Bool) : S2pPlane :=
  { alignment_channel := 0
    segmentation_channel := 0
    ops := exOps
    iscell := iscell
    cell_prob := iscell.map (fun _ => 0)
    stat := iscell.map (fun _ => ⟨0, (0, 0), [], [], []⟩)
    F := iscell.map (fun _ => 0)
    Fneu := iscell.map (fun _ => 0)
    F_chan2 := []
    Fneu_chan2 := []
    ref_image := 0
    mean_image := 0
    correlation_map := 0
    max_proj_image := 0 }

/-- The spec's end-to-end example loader: 2 planes with 3 and 2 cell
masks, `iscell = [true, false, true]` and `[true, true]`. -/
def exLoader : Suite2p :=
  ⟨0, none, [exPlane [true, false, true], exPlane [true, true]]⟩

-- ===== C1 =====

/-- C1: one `Segmentation.make` step on one key inserts exactly
`n1 + ... + nk` mask dicts whose ids are a counter increasing across
planes in iteration order (ids `0 .. n1+...+nk - 1`, no collisions), and
an equal number of `Cell` rows whose `is_cell` flags are the loader's
`iscell` values in plane-then-local order. -/
theorem segmentation_mask_numbering (loader : Suite2p)
    (hne : loader.planes ≠ []) (hwf : ∀ p ∈ loader.planes, p.WF) :
    ∃ r, Segmentation.make "suite2p" loader = .inserted r ∧
      r.masks.map SegEntry.mask
        = List.range ((loader.planes.map (fun p => p.iscell.length)).sum) ∧
      r.masks.map SegEntry.is_cell = (loader.planes.map S2pPlane.iscell).flatten ∧
      r.cellRows.map CellRow.is_cell = (loader.planes.map S2pPlane.iscell).flatten ∧
      r.cellRows.length = r.masks.length := by
  obtain ⟨p0, rest, hp⟩ : ∃ p0 rest, loader.planes = p0 :: rest := by
    cases h : loader.planes with
    | nil => exact absurd h hne
    | cons a l => exact ⟨a, l, rfl⟩
  have hm : Segmentation.make "suite2p" loader
      = .inserted ⟨p0.segmentation_channel, segMasks loader.planes⟩ := by
    rw [Segmentation.make, hp]
    simp [← hp]
  refine ⟨_, hm, ?_, ?_, ?_, ?_⟩
  · show (segMasks loader.planes).map SegEntry.mask = _
    rw [segMasks_map_mask, maskTotal_of_wf loader.planes hwf]
  · exact segMasks_map_is_cell loader.planes hwf
  · have h := segMasks_map_is_cell loader.planes hwf
    show ((segMasks loader.planes).map _).map CellRow.is_cell = _
    rw [List.map_map]
    exact h
  · simp [SegResult.cellRows]

/-- Witness for C1 at the spec's end-to-end example: 2 planes with 3 and
2 masks, exactly 5 mask ids `0..4` and 5 `Cell` rows with `is_cell`
`[T, F, T, T, T]`. -/
theorem segmentation_mask_numbering_witness :
    exLoader.planes ≠ [] ∧ (∀ p ∈ exLoader.planes, p.WF) ∧
    ∃ r, Segmentation.make "suite2p" exLoader = .inserted r ∧
      r.masks.map SegEntry.mask = [0, 1, 2, 3, 4] ∧
      r.masks.map SegEntry.is_cell = [true, false, true, true, true] ∧
      r.cellRows.map CellRow.is_cell = [true, false, true, true, true] ∧
      r.cellRows.length = r.masks.length ∧ r.masks.length = 5 := by
  refine ⟨by decide, by decide, ?_⟩
  obtain ⟨r, h0, h1, h2, h3, h4⟩ :=
    segmentation_mask_numbering exLoader (by decide) (by decide)
  refine ⟨r, h0, ?_, ?_, ?_, h4, ?_⟩
  · rw [h1]; decide
  · rw [h2]; decide
  · rw [h3]; decide
  · have := congrArg List.length h1
    simpa using this

-- ===== C2 =====

/-- C2: a `Processing.make` call for a suite2p key whose resolved output
directory does not exist inserts zero rows (no `Processing`,
`PhysicalFile` or `ProcessingOutputFile` row) and returns with the key
pending, never an error or a partial record. -/
theorem processing_absent_dir_pending (loader : Suite2p) (files : List String) :
    Processing.make "suite2p" false loader files = .pending ∧
    (Processing.make "suite2p" false loader files).insertedRows = none ∧
    (Processing.make "suite2p" false loader files).keyOutcome
      = KeyOutcome.pendingKey := by
  refine ⟨rfl, rfl, rfl⟩

-- ===== C3 =====

/-- C3: a key whose method is not the implemented suite2p variant fails
with the unsupported-method outcome in every make step; the population
pass records that outcome for the key, drops no key, continues over the
remaining keys, and inserts no rows for the failing key. -/
theorem unsupported_method_isolated {κ ρ : Type} (nanstd : List Int → Int)
    (method : String) (hm : method ≠ "suite2p") (loader : Suite2p)
    (dirExists : Bool) (files : List String) (keys : List κ)
    (makeFn : κ → MakeOutcome ρ) :
    Processing.make method dirExists loader files = .unsupported ∧
    MotionCorrection.make nanstd method loader = .unsupported ∧
    MotionCorrectedImages.make method loader = .unsupported ∧
    Segmentation.make method loader = .unsupported ∧
    Fluorescence.make method loader = .unsupported ∧
    (populatePass makeFn keys).map Prod.fst = keys ∧
    ∀ k ∈ keys, makeFn k = .unsupported →
      (k, KeyOutcome.unsupportedMethod) ∈ populatePass makeFn keys ∧
      (makeFn k).insertedRows = none := by
  refine ⟨?_, ?_, ?_, ?_, ?_, ?_, ?_⟩
  · simp [Processing.make, hm]
  · simp [MotionCorrection.make, hm]
  · simp [MotionCorrectedImages.make, hm]
  · simp [Segmentation.make, hm]
  · simp [Fluorescence.make, hm]
  · simp only [populatePass, List.map_map]
    exact List.map_id keys
  · intro k hk hunsup
    constructor
    · have h := List.mem_map_of_mem (fun k => (k, (makeFn k).keyOutcome)) hk
      simpa [populatePass, hunsup, MakeOutcome.keyOutcome] using h
    · simp [hunsup, MakeOutcome.insertedRows]

/-- Witness for C3: the caiman method on two keys — both keys appear in
the pass outcomes, each marked unsupported, with no rows inserted. -/
theorem unsupported_method_isolated_witness :
    "caiman" ≠ "suite2p" ∧
    (Processing.make "caiman" true exLoader [] = .unsupported ∧
     MotionCorrection.make (fun _ => 0) "caiman" exLoader = .unsupported ∧
     MotionCorrectedImages.make "caiman" exLoader = .unsupported ∧
     Segmentation.make "caiman" exLoader = .unsupported ∧
     Fluorescence.make "caiman" exLoader = .unsupported ∧
     (populatePass (fun _ : Nat => Processing.make "caiman" true exLoader [])
        [0, 1]).map Prod.fst = [0, 1] ∧
     ∀ k ∈ [0, 1], Processing.make "caiman" true exLoader [] = .unsupported →
       (k, KeyOutcome.unsupportedMethod) ∈
         populatePass (fun _ : Nat => Processing.make "caiman" true exLoader [])
           [0, 1] ∧
       (Processing.make "caiman" true exLoader []).insertedRows = none) :=
  ⟨by decide, unsupported_method_isolated (fun _ => 0) "caiman" (by decide)
    exLoader true [] [0, 1] (fun _ => Processing.make "caiman" true exLoader [])⟩

-- ===== C4 =====

/-- C4: the keys eligible for `Processing` are exactly the
`ProcessingTask` keys whose scan also has a `ScanInfo` record, minus the
keys already present in `Processing`. -/
theorem eligible_processing_characterization (s : Store) (k : Nat × Nat) :
    k ∈ eligibleProcessing s ↔
      k ∈ s.processingTask ∧ k.1 ∈ s.scanInfo ∧ k ∉ s.processing := by
  simp [eligibleProcessing, Processing.key_source, List.mem_filter, and_assoc]
  tauto

-- ===== C5 =====

/-- A loader output exhibiting the trace/mask numbering mismatch: two
planes of one mask each, the first with a non-empty second channel. -/
def bugLoader : Suite2p :=
  ⟨0, none, [{ exPlane [true] with F_chan2 := [0], Fneu_chan2 := [0] },
             exPlane [true]]⟩

/-- C5 (code bug): at `bugLoader`, `Segmentation.make` assigns mask ids
`{0, 1}` (its `mask_count` counts mask dicts) but `Fluorescence.make`
offsets the second plane's trace by `mask_count = len(fluo_traces)`, which
also counts the first plane's channel-2 trace rows — so a `Trace` row
references mask id 2, which no `Mask`/`Cell` row carries, violating the
declared `Trace → Segmentation.Cell` foreign key. -/
theorem fluorescence_dangling_mask_reference :
    ∃ tr sr, Fluorescence.make "suite2p" bugLoader = .inserted tr ∧
      Segmentation.make "suite2p" bugLoader = .inserted sr ∧
      sr.masks.map SegEntry.mask = [0, 1] ∧
      ∃ t ∈ tr, t.mask = 2 ∧ t.mask ∉ sr.masks.map SegEntry.mask := by
  refine ⟨fluoTraces bugLoader.planes, ⟨0, segMasks bugLoader.planes⟩,
    ?_, ?_, ?_, ?_⟩
  · decide
  · decide
  · decide
  · decide

-- ===== C7 =====

/-- C7: `MotionCorrectedImages.make` inserts exactly one row per plane of
the loader output, carrying that plane's reference, average (mean),
correlation and max-projection images (the loader's iteration protocol is
modelled from the spec as the ordered plane sequence). -/
theorem images_one_row_per_plane (loader : Suite2p) :
    ∃ rows, MotionCorrectedImages.make "suite2p" loader = .inserted rows ∧
      rows.length = loader.planes.length ∧
      ∀ i, rows[i]? = (loader.planes[i]?).map
        (fun p => ImagesRow.mk i p.ref_image p.mean_image p.correlation_map
          p.max_proj_image) := by
  refine ⟨loader.planes.enum.map
    (fun p => ⟨p.1, p.2.ref_image, p.2.mean_image, p.2.correlation_map,
               p.2.max_proj_image⟩), ?_, ?_, ?_⟩
  · simp [MotionCorrectedImages.make]
  · simp
  · intro i
    rw [List.getElem?_map, List.getElem?_enum]
    cases h : loader.planes[i]? <;> simp

-- ===== C8 =====

/-- C8: a `Processing.make` insert writes `completion_time` exactly once,
in the single inserted row, equal to the loader's creation time; given
the loader's curation-not-before-creation guarantee, `curation_time` is
null or at least `completion_time`. The engine embeds no update
operation, so the inserted row is never modified afterwards. -/
theorem processing_times_invariant (loader : Suite2p) (files : List String)
    (h : loader.TimesWF) :
    ∃ r, Processing.make "suite2p" true loader files = .inserted r ∧
      r.processing = [⟨none, loader.creation_time, loader.curation_time⟩] ∧
      ∀ row ∈ r.processing,
        row.completion_time = loader.creation_time ∧
        (row.curation_time = none ∨
          ∃ c, row.curation_time = some c ∧ row.completion_time ≤ c) := by
  refine ⟨⟨[⟨none, loader.creation_time, loader.curation_time⟩], files, files⟩,
    by simp [Processing.make], rfl, ?_⟩
  intro row hrow
  rw [List.mem_singleton] at hrow
  subst hrow
  refine ⟨rfl, ?_⟩
  cases hc : loader.curation_time with
  | none => exact Or.inl rfl
  | some c => exact Or.inr ⟨c, rfl, h c hc⟩

/-- Witness for C8 at the example loader (creation time 0, no curation
yet): the single inserted row carries `completion_time = 0` and a null
`curation_time`. -/
theorem processing_times_invariant_witness :
    exLoader.TimesWF ∧
    ∃ r, Processing.make "suite2p" true exLoader [] = .inserted r ∧
      r.processing = [⟨none, exLoader.creation_time, exLoader.curation_time⟩] ∧
      ∀ row ∈ r.processing,
        row.completion_time = exLoader.creation_time ∧
        (row.curation_time = none ∨
          ∃ c, row.curation_time = some c ∧ row.completion_time ≤ c) :=
  ⟨by decide, processing_times_invariant exLoader [] (by decide)⟩

-- ===== C9 =====

/-- C9: the single `MotionCorrection` master row's `mc_channel` and the
single `Segmentation` master row's `seg_channel` are read solely from the
loader's first plane, whatever channels later planes report. -/
theorem master_channels_from_first_plane (nanstd : List Int → Int)
    (loader : Suite2p) (p0 : S2pPlane) (rest : List S2pPlane)
    (hp : loader.planes = p0 :: rest) :
    (∃ r, MotionCorrection.make nanstd "suite2p" loader = .inserted r ∧
      r.mc_channel = p0.alignment_channel) ∧
    (∃ r, Segmentation.make "suite2p" loader = .inserted r ∧
      r.seg_channel = p0.segmentation_channel) := by
  constructor
  · refine ⟨⟨p0.alignment_channel, (mcRows nanstd loader.planes).1,
      (mcRows nanstd loader.planes).2.1, (mcRows nanstd loader.planes).2.2⟩,
      ?_, rfl⟩
    rw [MotionCorrection.make, hp]
    simp [← hp]
  · refine ⟨⟨p0.segmentation_channel, segMasks loader.planes⟩, ?_, rfl⟩
    rw [Segmentation.make, hp]
    simp [← hp]

/-- A loader with two planes whose alignment/segmentation channels
differ between the planes. -/
def chanLoader : Suite2p :=
  ⟨0, none, [exPlane [true],
             { exPlane [true] with alignment_channel := 1,
                                   segmentation_channel := 1 }]⟩

/-- Witness for C9: two planes reporting channels 0 and 1; the stored
master channels are the first plane's (0), not the second's. -/
theorem master_channels_from_first_plane_witness :
    chanLoader.planes
      = exPlane [true] :: [{ exPlane [true] with alignment_channel := 1,
                                                 segmentation_channel := 1 }] ∧
    ((∃ r, MotionCorrection.make (fun _ => 0) "suite2p" chanLoader
        = .inserted r ∧ r.mc_channel = (exPlane [true]).alignment_channel) ∧
     (∃ r, Segmentation.make "suite2p" chanLoader = .inserted r ∧
        r.seg_channel = (exPlane [true]).segmentation_channel)) ∧
    (exPlane [true]).alignment_channel = 0 ∧
    ({ exPlane [true] with alignment_channel := 1,
                           segmentation_channel := 1 } : S2pPlane).alignment_channel
      = 1 :=
  ⟨rfl,
   master_channels_from_first_plane (fun _ => 0) chanLoader (exPlane [true])
     [{ exPlane [true] with alignment_channel := 1, segmentation_channel := 1 }]
     rfl,
   by decide, by decide⟩

-- ===== Lemmas: motion correction rows =====

theorem mcPlane_fst (nanstd : List Int → Int) (i : Nat) (p : S2pPlane) :
    (mcPlane nanstd i p).1
      = ⟨i, p.ops.yoff, p.ops.xoff, nanstd p.ops.yoff, nanstd p.ops.xoff,
         p.ops.badframes⟩ := by
  unfold mcPlane
  split <;> rfl

theorem mcPlane_snd_none (nanstd : List Int → Int) (i : Nat) (p : S2pPlane)
    (h : p.ops.nonrigid = false) : (mcPlane nanstd i p).2 = none := by
  unfold mcPlane
  simp [h]

theorem mcPlane_snd_some (nanstd : List Int → Int) (i : Nat) (p : S2pPlane)
    (h : p.ops.nonrigid = true) :
    ∃ nr blocks, (mcPlane nanstd i p).2 = some (nr, blocks) ∧ nr.plane = i ∧
      ∀ b ∈ blocks, b.plane = i := by
  simp only [mcPlane, h, if_true]
  refine ⟨_, _, rfl, rfl, ?_⟩
  intro b hb
  rcases List.mem_map.mp hb with ⟨q, -, rfl⟩
  rfl

/-- Structural companion of the `mcRows` fold, starting at plane index
`i`. -/
def mcRowsFrom (nanstd : List Int → Int) (i : Nat) :
    List S2pPlane → List RigidRow × List NonrigidRow × List BlockRow
  | [] => ([], [], [])
  | p :: rest =>
    let r := mcPlane nanstd i p
    let t := mcRowsFrom nanstd (i + 1) rest
    match r.2 with
    | none => (r.1 :: t.1, t.2.1, t.2.2)
    | some nr => (r.1 :: t.1, nr.1 :: t.2.1, nr.2 ++ t.2.2)

theorem mcRows_foldl (nanstd : List Int → Int) (planes : List S2pPlane) :
    ∀ (i : Nat) (acc : List RigidRow × List NonrigidRow × List BlockRow),
      (List.enumFrom i planes).foldl (mcStep nanstd) acc
      = (acc.1 ++ (mcRowsFrom nanstd i planes).1,
         acc.2.1 ++ (mcRowsFrom nanstd i planes).2.1,
         acc.2.2 ++ (mcRowsFrom nanstd i planes).2.2) := by
  induction planes with
  | nil => intro i acc; simp [mcRowsFrom]
  | cons p rest ih =>
    intro i acc
    rw [List.enumFrom_cons, List.foldl_cons, ih (i + 1) (mcStep nanstd acc (i, p))]
    simp only [mcStep, mcRowsFrom]
    cases h : (mcPlane nanstd i p).2 <;> simp [h]

theorem mcRows_eq_from (nanstd : List Int → Int) (planes : List S2pPlane) :
    mcRows nanstd planes = mcRowsFrom nanstd 0 planes := by
  have h := mcRows_foldl nanstd planes 0 ([], [], [])
  simpa [mcRows, List.enum] using h

theorem mcRowsFrom_rigid (nanstd : List Int → Int) (planes : List S2pPlane) :
    ∀ i, (mcRowsFrom nanstd i planes).1
      = (List.enumFrom i planes).map (fun p => (mcPlane nanstd p.1 p.2).1) := by
  induction planes with
  | nil => intro i; simp [mcRowsFrom]
  | cons p rest ih =>
    intro i
    simp only [mcRowsFrom, List.enumFrom_cons, List.map_cons]
    cases h : (mcPlane nanstd i p).2 <;> simp [h, ih (i + 1)]

theorem mcRowsFrom_nonrigid_map_plane (nanstd : List Int → Int)
    (planes : List S2pPlane) :
    ∀ i, (mcRowsFrom nanstd i planes).2.1.map NonrigidRow.plane
      = ((List.enumFrom i planes).filter
          (fun p => p.2.ops.nonrigid)).map Prod.fst := by
  induction planes with
  | nil => intro i; simp [mcRowsFrom]
  | cons p rest ih =>
    intro i
    simp only [mcRowsFrom, List.enumFrom_cons, List.filter_cons]
    cases hn : p.ops.nonrigid with
    | false =>
      rw [mcPlane_snd_none nanstd i p hn]
      simpa using ih (i + 1)
    | true =>
      obtain ⟨nr, blocks, h2, hplane, -⟩ := mcPlane_snd_some nanstd i p hn
      rw [h2]
      simpa [hplane] using ih (i + 1)

theorem mcRowsFrom_blocks (nanstd : List Int → Int) (planes : List S2pPlane) :
    ∀ i, (mcRowsFrom nanstd i planes).2.2
      = ((List.enumFrom i planes).map
          (fun p => ((mcPlane nanstd p.1 p.2).2.elim [] Prod.snd))).flatten := by
  induction planes with
  | nil => intro i; simp [mcRowsFrom]
  | cons p rest ih =>
    intro i
    simp only [mcRowsFrom, List.enumFrom_cons, List.map_cons, List.flatten_cons]
    cases h : (mcPlane nanstd i p).2 with
    | none => simp [h, ih (i + 1)]
    | some nr => simp [h, ih (i + 1)]

theorem mcRowsFrom_blocks_have_nonrigid (nanstd : List Int → Int)
    (planes : List S2pPlane) :
    ∀ i, ∀ b ∈ (mcRowsFrom nanstd i planes).2.2,
      b.plane ∈ (mcRowsFrom nanstd i planes).2.1.map NonrigidRow.plane := by
  induction planes with
  | nil => intro i b hb; simp [mcRowsFrom] at hb
  | cons p rest ih =>
    intro i b hb
    simp only [mcRowsFrom] at hb ⊢
    cases h : (mcPlane nanstd i p).2 with
    | none =>
      rw [h] at hb
      exact ih (i + 1) b hb
    | some nr =>
      rw [h] at hb
      replace hb : b ∈ nr.2 ++ (mcRowsFrom nanstd (i + 1) rest).2.2 := hb
      show b.plane ∈
        List.map NonrigidRow.plane (nr.1 :: (mcRowsFrom nanstd (i + 1) rest).2.1)
      simp only [List.mem_append] at hb
      rcases hb with hb | hb
      · have hp : nr.1.plane = i ∧ ∀ x ∈ nr.2, x.plane = i := by
          have hnr : p.ops.nonrigid = true := by
            by_contra hn
            rw [mcPlane_snd_none nanstd i p (by
              cases hh : p.ops.nonrigid
              · rfl
              · exact absurd hh hn)] at h
            exact Option.noConfusion h
          obtain ⟨nr', blocks', h2, hplane, hblocks⟩ :=
            mcPlane_snd_some nanstd i p hnr
          rw [h2] at h
          cases h
          exact ⟨hplane, hblocks⟩
        rw [List.map_cons, hp.1, hp.2 b hb]
        exact List.mem_cons_self _ _
      · rcases List.mem_map.mp (ih (i + 1) b hb) with ⟨nr', hnr', he⟩
        rw [List.map_cons]
        exact List.mem_cons_of_mem _ (List.mem_map.mpr ⟨nr', hnr', he⟩)

-- ===== C6 =====

theorem mcRows_rigid_map_plane (nanstd : List Int → Int)
    (planes : List S2pPlane) :
    (mcRows nanstd planes).1.map RigidRow.plane = List.range planes.length := by
  rw [mcRows_eq_from, mcRowsFrom_rigid nanstd planes 0, List.map_map]
  have hcongr : ∀ q ∈ List.enumFrom 0 planes,
      (RigidRow.plane ∘ fun p => (mcPlane nanstd p.1 p.2).1) q = Prod.fst q := by
    intro q hq
    simp [Function.comp, mcPlane_fst]
  rw [List.map_congr_left hcongr, List.enumFrom_map_fst]
  exact (List.range_eq_range' _).symm

theorem mcRows_nonrigid_map_plane (nanstd : List Int → Int)
    (planes : List S2pPlane) :
    (mcRows nanstd planes).2.1.map NonrigidRow.plane
      = (planes.enum.filter (fun p => p.2.ops.nonrigid)).map Prod.fst := by
  rw [mcRows_eq_from]
  exact mcRowsFrom_nonrigid_map_plane nanstd planes 0

/-- C6: every plane gets exactly one rigid motion-correction row (their
field ids enumerate the planes once each); a non-rigid row exists for a
field exactly when that plane's `ops['nonrigid']` is truthy (the non-rigid
field ids are exactly the nonrigid planes' ids in order); the block rows
are exactly the nonrigid planes' per-plane block lists, and every block
row's field also has a non-rigid row. -/
theorem motion_correction_rigid_nonrigid (nanstd : List Int → Int)
    (loader : Suite2p) (hne : loader.planes ≠ []) :
    ∃ r, MotionCorrection.make nanstd "suite2p" loader = .inserted r ∧
      r.rigid.map RigidRow.plane = List.range loader.planes.length ∧
      r.nonrigid.map NonrigidRow.plane
        = (loader.planes.enum.filter (fun p => p.2.ops.nonrigid)).map Prod.fst ∧
      r.blocks = (loader.planes.enum.map
          (fun p => ((mcPlane nanstd p.1 p.2).2.elim [] Prod.snd))).flatten ∧
      ∀ b ∈ r.blocks, b.plane ∈ r.nonrigid.map NonrigidRow.plane := by
  obtain ⟨p0, rest, hp⟩ : ∃ p0 rest, loader.planes = p0 :: rest := by
    cases h : loader.planes with
    | nil => exact absurd h hne
    | cons a l => exact ⟨a, l, rfl⟩
  have hm : MotionCorrection.make nanstd "suite2p" loader
      = .inserted ⟨p0.alignment_channel, (mcRows nanstd loader.planes).1,
          (mcRows nanstd loader.planes).2.1,
          (mcRows nanstd loader.planes).2.2⟩ := by
    rw [MotionCorrection.make, hp]
    simp [← hp]
  refine ⟨_, hm, ?_, ?_, ?_, ?_⟩
  · exact mcRows_rigid_map_plane nanstd loader.planes
  · exact mcRows_nonrigid_map_plane nanstd loader.planes
  · show (mcRows nanstd loader.planes).2.2 = _
    rw [mcRows_eq_from]
    exact mcRowsFrom_blocks nanstd loader.planes 0
  · intro b hb
    have hb' : b ∈ (mcRowsFrom nanstd 0 loader.planes).2.2 := by
      rw [← mcRows_eq_from]
      exact hb
    have hmem := mcRowsFrom_blocks_have_nonrigid nanstd loader.planes 0 b hb'
    show b.plane ∈ (mcRows nanstd loader.planes).2.1.map NonrigidRow.plane
    rw [mcRows_eq_from]
    exact hmem

/-- Example ops reporting non-rigid correction with one block. -/
def nrOps : Ops := ⟨[], [], [], true, (1, 1), (1, 1), [(0, 1)], [(0, 1)], [[0]], [[0]]⟩

/-- A loader whose first plane used non-rigid correction and whose second
did not. -/
def nrLoader : Suite2p :=
  ⟨0, none, [{ exPlane [true] with ops := nrOps }, exPlane [true]]⟩

/-- Witness for C6: of two planes, only the first (non-rigid) has a
non-rigid row and blocks; both have rigid rows. -/
theorem motion_correction_rigid_nonrigid_witness :
    nrLoader.planes ≠ [] ∧
    ∃ r, MotionCorrection.make (fun _ => 0) "suite2p" nrLoader = .inserted r ∧
      r.rigid.map RigidRow.plane = List.range nrLoader.planes.length ∧
      r.nonrigid.map NonrigidRow.plane
        = (nrLoader.planes.enum.filter (fun p => p.2.ops.nonrigid)).map Prod.fst ∧
      r.blocks = (nrLoader.planes.enum.map
          (fun p => ((mcPlane (fun _ => 0) p.1 p.2).2.elim [] Prod.snd))).flatten ∧
      ∀ b ∈ r.blocks, b.plane ∈ r.nonrigid.map NonrigidRow.plane :=
  ⟨by decide, motion_correction_rigid_nonrigid (fun _ => 0) nrLoader (by decide)⟩

-- ===== Lemmas: fluorescence traces =====

/-- The primary-channel trace chunk one plane contributes, with the
plane's `mask_count = count`. -/
def chan0Rows (count : Nat) (p : S2pPlane) : List TraceRow :=
  (List.zip p.F p.Fneu).enum.map (fun t => TraceRow.mk (t.1 + count) 0 t.2.1 t.2.2)

/-- The second-channel trace chunk one plane contributes (empty unless
`F_chan2` is non-empty), with the plane's `mask_count = count`. -/
def chan2Rows (count : Nat) (p : S2pPlane) : List TraceRow :=
  if p.F_chan2.length ≠ 0 then
    (List.zip p.F_chan2 p.Fneu_chan2).enum.map
      (fun t => TraceRow.mk (t.1 + count) 1 t.2.1 t.2.2)
  else []

/-- Structural companion of the `fluoTraces` fold, with `mask_count =
count` at the head plane. -/
def fluoFrom (count : Nat) : List S2pPlane → List TraceRow
  | [] => []
  | p :: rest =>
    chan0Rows count p ++ chan2Rows count p ++
      fluoFrom (count + (chan0Rows count p).length + (chan2Rows count p).length)
        rest

theorem fluoStep_eq (acc : List TraceRow) (p : S2pPlane) :
    fluoStep acc p = acc ++ (chan0Rows acc.length p ++ chan2Rows acc.length p) := by
  simp only [fluoStep, chan0Rows, chan2Rows]
  split <;> simp

theorem fluoTraces_foldl (planes : List S2pPlane) :
    ∀ acc : List TraceRow,
      planes.foldl fluoStep acc = acc ++ fluoFrom acc.length planes := by
  induction planes with
  | nil => intro acc; simp [fluoFrom]
  | cons p rest ih =>
    intro acc
    rw [List.foldl_cons, ih (fluoStep acc p), fluoStep_eq]
    simp only [fluoFrom]
    simp [List.length_append, List.append_assoc, Nat.add_assoc]

theorem chan0Rows_channel (count : Nat) (p : S2pPlane) :
    ∀ t ∈ chan0Rows count p, t.fluo_channel = 0 := by
  intro t ht
  rcases List.mem_map.mp ht with ⟨q, -, rfl⟩
  rfl

theorem chan2Rows_channel (count : Nat) (p : S2pPlane) :
    ∀ t ∈ chan2Rows count p, t.fluo_channel = 1 := by
  intro t ht
  unfold chan2Rows at ht
  split at ht
  · rcases List.mem_map.mp ht with ⟨q, -, rfl⟩
    rfl
  · simp at ht

theorem length_chan0Rows (count : Nat) (p : S2pPlane) (h : p.WF) :
    (chan0Rows count p).length = p.F.length := by
  obtain ⟨-, -, hF, hFneu, -⟩ := h
  simp [chan0Rows, List.length_zip, hF, hFneu]

theorem length_chan2Rows (count : Nat) (p : S2pPlane) (h : p.WF) :
    (chan2Rows count p).length = p.F_chan2.length := by
  obtain ⟨-, -, -, -, hc2⟩ := h
  unfold chan2Rows
  split
  · simp [List.length_zip, hc2]
  · next hc =>
    simp only [ne_eq, not_not] at hc
    simp [hc]

theorem filter_channel_all (l : List TraceRow) (c d : Nat)
    (h : ∀ t ∈ l, t.fluo_channel = c) :
    l.filter (fun t => t.fluo_channel = d) = if c = d then l else [] := by
  split
  · next hcd =>
    subst hcd
    apply List.filter_eq_self.mpr
    intro t ht
    simp [h t ht]
  · next hcd =>
    apply List.filter_eq_nil_iff.mpr
    intro t ht
    simp [h t ht, hcd]

theorem fluoFrom_channels (planes : List S2pPlane) (hwf : ∀ p ∈ planes, p.WF) :
    ∀ count,
      (∀ t ∈ fluoFrom count planes, t.fluo_channel = 0 ∨ t.fluo_channel = 1) ∧
      ((fluoFrom count planes).filter (fun t => t.fluo_channel = 0)).length
        = (planes.map (fun p => p.F.length)).sum ∧
      ((fluoFrom count planes).filter (fun t => t.fluo_channel = 1)).length
        = (planes.map (fun p => p.F_chan2.length)).sum := by
  induction planes with
  | nil => intro count; simp [fluoFrom]
  | cons p rest ih =>
    intro count
    have hwfp : p.WF := hwf p (by simp)
    obtain ⟨hmem, hf0, hf1⟩ := ih (fun q hq => hwf q (by simp [hq]))
      (count + (chan0Rows count p).length + (chan2Rows count p).length)
    refine ⟨?_, ?_, ?_⟩
    · intro t ht
      simp only [fluoFrom, List.mem_append] at ht
      rcases ht with (ht | ht) | ht
      · exact Or.inl (chan0Rows_channel count p t ht)
      · exact Or.inr (chan2Rows_channel count p t ht)
      · exact hmem t ht
    · simp only [fluoFrom, List.filter_append, List.length_append, List.map_cons,
        List.sum_cons]
      rw [filter_channel_all _ 0 0 (chan0Rows_channel count p),
        filter_channel_all _ 1 0 (chan2Rows_channel count p), hf0]
      simp [length_chan0Rows count p hwfp]
    · simp only [fluoFrom, List.filter_append, List.length_append, List.map_cons,
        List.sum_cons]
      rw [filter_channel_all _ 0 1 (chan0Rows_channel count p),
        filter_channel_all _ 1 1 (chan2Rows_channel count p), hf1]
      simp [length_chan2Rows count p hwfp]

-- ===== C10 =====

/-- C10: every trace row inserted by `Fluorescence.make` carries
`fluo_channel` 0 (primary `F`/`Fneu` series) or 1 (second-channel
series), whatever the scan's channel identifiers; the channel-0 rows
number exactly the primary series and the channel-1 rows exactly the
second-channel series, and channel-1 rows exist precisely when some
plane's `F_chan2` is non-empty. -/
theorem fluorescence_channel_constants (loader : Suite2p)
    (hwf : ∀ p ∈ loader.planes, p.WF) :
    ∃ tr, Fluorescence.make "suite2p" loader = .inserted tr ∧
      (∀ t ∈ tr, t.fluo_channel = 0 ∨ t.fluo_channel = 1) ∧
      (tr.filter (fun t => t.fluo_channel = 0)).length
        = (loader.planes.map (fun p => p.F.length)).sum ∧
      (tr.filter (fun t => t.fluo_channel = 1)).length
        = (loader.planes.map (fun p => p.F_chan2.length)).sum ∧
      ((∃ t ∈ tr, t.fluo_channel = 1) ↔ ∃ p ∈ loader.planes, p.F_chan2 ≠ []) := by
  have heq : fluoTraces loader.planes = fluoFrom 0 loader.planes := by
    have h := fluoTraces_foldl loader.planes []
    simpa [fluoTraces] using h
  obtain ⟨hmem, hf0, hf1⟩ := fluoFrom_channels loader.planes hwf 0
  refine ⟨fluoTraces loader.planes, by simp [Fluorescence.make], ?_, ?_, ?_, ?_⟩
  · rw [heq]; exact hmem
  · rw [heq]; exact hf0
  · rw [heq]; exact hf1
  · rw [heq]
    constructor
    · rintro ⟨t, ht, hch⟩
      by_contra hno
      push_neg at hno
      have hsum : (loader.planes.map fun p => p.F_chan2.length).sum = 0 := by
        apply List.sum_eq_zero_iff.mpr
        intro x hx
        rcases List.mem_map.mp hx with ⟨p, hp, rfl⟩
        simp [hno p hp]
      have hmemf : t ∈ (fluoFrom 0 loader.planes).filter
          (fun t => t.fluo_channel = 1) :=
        List.mem_filter.mpr ⟨ht, by simp [hch]⟩
      have hpos : 0 < ((fluoFrom 0 loader.planes).filter
          (fun t => t.fluo_channel = 1)).length :=
        List.length_pos.mpr (List.ne_nil_of_mem hmemf)
      rw [hf1, hsum] at hpos
      exact Nat.lt_irrefl 0 hpos
    · rintro ⟨p, hp, hne2⟩
      have hsum : (loader.planes.map fun p => p.F_chan2.length).sum ≠ 0 := by
        intro h0
        rw [List.sum_eq_zero_iff] at h0
        exact hne2 (List.length_eq_zero.mp
          (h0 p.F_chan2.length (List.mem_map.mpr ⟨p, hp, rfl⟩)))
      rw [← hf1] at hsum
      have hnil : (fluoFrom 0 loader.planes).filter
          (fun t => t.fluo_channel = 1) ≠ [] := by
        intro hn
        rw [hn] at hsum
        exact hsum rfl
      rcases List.exists_mem_of_ne_nil _ hnil with ⟨t, htf⟩
      rcases List.mem_filter.mp htf with ⟨ht, hch⟩
      exact ⟨t, ht, by simpa using hch⟩

/-- Witness for C10 at `bugLoader` (first plane has a second channel):
channel constants 0/1 and the existence iff hold. -/
theorem fluorescence_channel_constants_witness :
    (∀ p ∈ bugLoader.planes, p.WF) ∧
    ∃ tr, Fluorescence.make "suite2p" bugLoader = .inserted tr ∧
      (∀ t ∈ tr, t.fluo_channel = 0 ∨ t.fluo_channel = 1) ∧
      (tr.filter (fun t => t.fluo_channel = 0)).length
        = (bugLoader.planes.map (fun p => p.F.length)).sum ∧
      (tr.filter (fun t => t.fluo_channel = 1)).length
        = (bugLoader.planes.map (fun p => p.F_chan2.length)).sum ∧
      ((∃ t ∈ tr, t.fluo_channel = 1) ↔ ∃ p ∈ bugLoader.planes, p.F_chan2 ≠ []) :=
  ⟨by decide, fluorescence_channel_constants bugLoader (by decide)⟩
